import Mathlib

/-!
Verification development for the ai-stack repository.

The repository couples a React front end (chat UI, Gemini call helper,
response formatting, word-by-word typing animation) with a workflow
execution pipeline (graph validation, per-node-kind step executors, a
linear pipeline runner).  The front-end pieces (`sendPrompt`,
`delayMessage`, the markdown formatting and the typing-animation split,
the blank-input guard, `gemini.js`) are embedded below directly from the
JavaScript source.  The pipeline core (Node Registry, Graph Validator,
Step Executors, Pipeline Runner) is not shipped in the frontend sources,
so those definitions are modelled from the specification, as their doc
comments state.

Machine strings are lists of characters (Lean 4 `String` is exactly
that); wall-clock durations are not modellable and every `durationMs`
field is fixed to `0`; the `temperature` float is modelled as a rational
number that is only ever passed through, never computed with.
-/

namespace AiStack

/-- Node kinds of the workflow graph (spec section 3, NodeSpec.kind). -/
inductive NodeKind
  | UserQuery
  | KnowledgeBase
  | LLMEngine
  | Output
  deriving DecidableEq, Repr

/-- Modelled from the spec: kind-specific node configuration (spec section 3).
LLMEngine uses `provider`, `model`, `temperature`, `webSearch`;
KnowledgeBase uses `documentRefs`, `topK`.  A field that the client did
not supply is `none`. -/
structure NodeConfig where
  provider : Option String := none
  model : Option String := none
  temperature : Option Rat := none
  topK : Option Nat := none
  documentRefs : Option (List String) := none
  webSearch : Option Bool := none
  deriving DecidableEq, Repr

/-- Modelled from the spec: a node of the submitted graph (spec section 3). -/
structure NodeSpec where
  id : String
  kind : NodeKind
  config : NodeConfig
  deriving DecidableEq, Repr

/-- Modelled from the spec: an edge of the submitted graph (spec section 3);
the source fields are named `from`/`to`, renamed here because `from` is a
Lean keyword. -/
structure EdgeSpec where
  fromId : String
  toId : String
  deriving DecidableEq, Repr

/-- Modelled from the spec: a submitted graph (spec section 3). -/
structure Graph where
  nodes : List NodeSpec
  edges : List EdgeSpec
  deriving DecidableEq, Repr

/-- Modelled from the spec: the error taxonomy of spec sections 4 and 7. -/
inductive ErrorKind
  | DuplicateNodeId
  | MissingOrMultipleEntryPoint
  | MissingOrMultipleExitPoint
  | BranchingNotSupported
  | DisconnectedOrCyclicGraph
  | InvalidChainShape
  | InvalidNodeConfig (nodeId : String) (missing : String)
  | UnknownNodeKind
  | EmptyQuery
  | RetrievalUnavailable
  | ProviderError (provider : String) (cause : String)
  | UnsupportedProvider
  | MalformedUpstreamOutput
  | Cancelled
  deriving DecidableEq, Repr

/-- Modelled from the spec: step and run outputs are either a text or a
list of retrieved passages. -/
inductive Value
  | vstr (s : String)
  | vlist (l : List String)
  deriving DecidableEq, Repr

/-- Per-step outcome status (spec section 3, StepResult.status). -/
inductive StepStatus
  | ok
  | failed
  deriving DecidableEq, Repr

/-- Terminal run status (spec section 3, RunResult.status). -/
inductive RunStatus
  | completed
  | failed
  deriving DecidableEq, Repr

/-- Modelled from the spec: StepResult record (spec section 3).
`durationMs` is fixed to 0, wall-clock time being outside the model. -/
structure StepResult where
  nodeId : String
  status : StepStatus
  output : Option Value
  error : Option ErrorKind
  durationMs : Nat
  deriving DecidableEq, Repr

/-- Modelled from the spec: RunResult record (spec section 3). -/
structure RunResult where
  steps : List StepResult
  finalOutput : Option Value
  status : RunStatus
  totalDurationMs : Nat
  deriving DecidableEq, Repr

/-- Modelled from the spec: the ExecutionContext threaded between steps
(spec section 3): the query, the retrieved passages and the generated
text accumulated so far. -/
structure ExecutionContext where
  query : Option String := none
  passages : Option (List String) := none
  generated : Option String := none
  deriving DecidableEq, Repr

/-- Modelled from the spec: the abstract external capabilities of spec
section 6.  `generate` additionally receives the selecting provider as
its first argument (spec: "selected by `config.provider`"). -/
structure Capabilities where
  retrieve : String → Nat → Except String (List String)
  generate : String → String → String → Rat → Except String String
  webSearch : String → Except String (List String)

/-- Modelled from the spec: the Node Registry's required-field catalog
(spec sections 3 and 4.1). -/
def requiredFields : NodeKind → List String
  | .LLMEngine => ["provider", "model", "temperature"]
  | .KnowledgeBase => ["documentRefs", "topK"]
  | .UserQuery => []
  | .Output => []

/-- Modelled from the spec: whether a configuration supplies a field. -/
def hasField (c : NodeConfig) : String → Bool
  | "provider" => c.provider.isSome
  | "model" => c.model.isSome
  | "temperature" => c.temperature.isSome
  | "topK" => c.topK.isSome
  | "documentRefs" => c.documentRefs.isSome
  | _ => true

/-- Modelled from the spec: first required field of the node's kind that
its config is missing, if any (spec section 4.2 step 5). -/
def missingField (n : NodeSpec) : Option String :=
  (requiredFields n.kind).find? (fun f => ! hasField n.config f)

/-- Modelled from the spec: number of edges entering the node id. -/
def inDegree (g : Graph) (x : String) : Nat :=
  (g.edges.filter (fun e => e.toId == x)).length

/-- Modelled from the spec: number of edges leaving the node id. -/
def outDegree (g : Graph) (x : String) : Nat :=
  (g.edges.filter (fun e => e.fromId == x)).length

/-- Modelled from the spec: the nodes of in-degree 0 (candidate entry
points, spec section 4.2 step 2). -/
def entryNodes (g : Graph) : List NodeSpec :=
  g.nodes.filter (fun n => inDegree g n.id == 0)

/-- Modelled from the spec: the nodes of out-degree 0 (candidate exit
points, spec section 4.2 step 2). -/
def exitNodes (g : Graph) : List NodeSpec :=
  g.nodes.filter (fun n => outDegree g n.id == 0)

/-- Modelled from the spec: the walk of spec section 4.2 step 3; from
`cur`, follow single outgoing edges, collecting visited ids.  `fuel`
bounds the walk by the node count, so a cycle exhausts the fuel and the
walk reports failure (`none`). -/
def walkAux (E : List EdgeSpec) : Nat → String → List String → Option (List String)
  | 0, _, _ => none
  | fuel + 1, cur, acc =>
    match E.filter (fun e => e.fromId == cur) with
    | [] => some (acc ++ [cur])
    | [e] => walkAux E fuel e.toId (acc ++ [cur])
    | _ :: _ :: _ => none

/-- Modelled from the spec: the Graph Validator of spec section 4.2.  The
pipeline core is absent from the shipped frontend sources, so the six
validation steps are taken from the specification verbatim: duplicate
ids, entry/exit cardinality, branching, the walk, chain-shape kinds, and
per-node config completeness. -/
def validate (g : Graph) : Except ErrorKind (List NodeSpec) :=
  if (g.nodes.map NodeSpec.id).Nodup then
    match entryNodes g with
    | [entryNode] =>
      match exitNodes g with
      | [exitNode] =>
        if g.nodes.any (fun n =>
            decide (1 < inDegree g n.id) || decide (1 < outDegree g n.id)) then
          .error .BranchingNotSupported
        else
          match walkAux g.edges g.nodes.length entryNode.id [] with
          | none => .error .DisconnectedOrCyclicGraph
          | some visited =>
            let chain := visited.filterMap (fun i => g.nodes.find? (fun n => n.id == i))
            if visited.length = g.nodes.length ∧ chain.length = g.nodes.length
                ∧ visited.Nodup then
              if entryNode.kind = .UserQuery ∧ exitNode.kind = .Output then
                match chain.find? (fun n => (missingField n).isSome) with
                | some bad => .error (.InvalidNodeConfig bad.id ((missingField bad).getD ""))
                | none => .ok chain
              else .error .InvalidChainShape
            else .error .DisconnectedOrCyclicGraph
      | _ => .error .MissingOrMultipleExitPoint
    | _ => .error .MissingOrMultipleEntryPoint
  else .error .DuplicateNodeId

/-- Modelled from the spec: the validator with the state of its input
threaded explicitly.  Spec section 4.2 declares validation side-effect
free and section 8 demands that the input graph is not mutated, so the
operation returns its input graph unchanged alongside the result. -/
def validateSt (g : Graph) : Except ErrorKind (List NodeSpec) × Graph :=
  (validate g, g)

/-- JavaScript whitespace class: the characters matched by `\s` in a
JavaScript regular expression and trimmed by `String.prototype.trim`
(source part_002 lines 64 and 89). -/
def isJsSpace (c : Char) : Bool :=
  c = ' ' || c = '\t' || c = '\n' || c = '\r' || c = '\x0b' || c = '\x0c' ||
  c = ' ' || c = ' ' || (' ' ≤ c && c ≤ ' ') ||
  c = ' ' || c = ' ' || c = ' ' || c = ' ' ||
  c = '　' || c = '﻿'

/-- Embedding of JavaScript `String.prototype.trim` (source part_002 line
64 and part_001 line 9, `userInput.trim()`). -/
def jsTrim (s : String) : String :=
  String.mk (((s.data.dropWhile isJsSpace).reverse.dropWhile isJsSpace).reverse)

/-- Embedding of the blank-input guard `!userInput.trim()` of source
part_002 line 64: a string is blank when trimming leaves nothing. -/
def blank (s : String) : Bool :=
  jsTrim s == ""

/-- Embedding of the closing scan of the bold regex `\*\*(.*?)\*\*`
(source part_002 line 80): after an opening `**`, find the earliest
closing `**` (the capture is non-greedy) and return the captured middle
together with the remainder; `.` does not cross a line terminator. -/
def boldEnd : List Char → Option (List Char × List Char)
  | '*' :: '*' :: rest => some ([], rest)
  | c :: rest =>
    if c = '\n' || c = '\r' || c = ' ' || c = ' ' then none
    else
      match boldEnd rest with
      | some (mid, r) => some (c :: mid, r)
      | none => none
  | [] => none

/-- Embedding of `rawResponse.replace(/\*\*(.*?)\*\*/g, "<b>$1</b>")`
(source part_002 line 80).  `fuel` only bounds the recursion; one
character is consumed per unit, so `length + 1` fuel never runs out. -/
def replaceBoldF : Nat → List Char → List Char
  | 0, cs => cs
  | fuel + 1, '*' :: '*' :: rest =>
    match boldEnd rest with
    | some (mid, r) =>
      '<' :: 'b' :: '>' :: (mid ++ ('<' :: '/' :: 'b' :: '>' :: replaceBoldF fuel r))
    | none => '*' :: '*' :: replaceBoldF fuel rest
  | fuel + 1, c :: rest => c :: replaceBoldF fuel rest
  | _ + 1, [] => []

/-- Embedding of `withBold.replace(/\*/g, "<br/>")` (source part_002
line 81): every remaining star becomes a line break tag. -/
def starToBr : List Char → List Char
  | [] => []
  | '*' :: rest => '<' :: 'b' :: 'r' :: '/' :: '>' :: starToBr rest
  | c :: rest => c :: starToBr rest

/-- Embedding of the response formatting of source part_002 lines 80-81:
markdown bold to `<b>` tags, then stars to `<br/>`. -/
def formatResponse (s : String) : String :=
  String.mk (starToBr (replaceBoldF (s.data.length + 1) s.data))

/-- The characters of the literal separator `<br/>` in the typing
animation split regex (source part_002 line 89). -/
def brChars : List Char := ['<', 'b', 'r', '/', '>']

/-- Embedding of `formatted.split(/(\s+|<br\/>)/g)` (source part_002 line
89).  The capture group makes JavaScript `split` keep each separator in
the result, so the output alternates pieces and separators.  `fuel` only
bounds the recursion; every recursive call consumes at least one
character, so `length + 1` fuel never runs out, and the fuel-exhaustion
fallback still returns a partition of the input. -/
def splitGoF : Nat → List Char → List Char → List (List Char)
  | 0, acc, cs => [acc.reverse ++ cs]
  | fuel + 1, acc, cs =>
    match cs with
    | [] => [acc.reverse]
    | c :: rest =>
      if isJsSpace c then
        acc.reverse :: (c :: rest.takeWhile isJsSpace)
          :: splitGoF fuel [] (rest.dropWhile isJsSpace)
      else if cs.take 5 = brChars then
        acc.reverse :: brChars :: splitGoF fuel [] (cs.drop 5)
      else splitGoF fuel (c :: acc) rest

/-- Embedding of the separator-preserving split that feeds the
word-by-word typing animation (source part_002 lines 89-90). -/
def splitTyping (s : String) : List String :=
  (splitGoF (s.data.length + 1) [] s.data).map (fun cs => String.mk cs)

/-- Modelled from the spec: the UserQuery executor (spec section 4.3);
output is the raw query string, blank input fails with `EmptyQuery`.
The blank test is the source's `!userInput.trim()` guard (part_002 line
64). -/
def userQueryExec (ctx : ExecutionContext) (_cfg : NodeConfig) : Except ErrorKind String :=
  let q := ctx.query.getD ""
  if blank q then .error .EmptyQuery else .ok q

/-- Modelled from the spec: the KnowledgeBase executor (spec section
4.3); calls the retrieval capability with the query from context and
`config.topK`, failing with `RetrievalUnavailable` when the capability
errors. -/
def knowledgeBaseExec (caps : Capabilities) (ctx : ExecutionContext)
    (cfg : NodeConfig) : Except ErrorKind (List String) :=
  match caps.retrieve (ctx.query.getD "") (cfg.topK.getD 0) with
  | .ok ps => .ok ps
  | .error _ => .error .RetrievalUnavailable

/-- Modelled from the spec: the providers the LLMEngine accepts (spec
section 4.3). -/
def allowedProviders : List String := ["openai", "gemini"]

/-- Modelled from the spec: prompt construction of spec section 4.3; the
query, then any retrieved passages, then any web-search snippets, each on
its own line. -/
def buildPrompt (query : String) (passages : List String) (snippets : List String) : String :=
  query ++ String.join (passages.map (fun p => "\n" ++ p))
        ++ String.join (snippets.map (fun s => "\n" ++ s))

/-- Modelled from the spec: the web-search merge of spec section 4.3;
invoked only when `config.webSearch` is true, and a failing search
contributes no snippets (the spec gives LLMEngine no web-search failure
kind). -/
def webSnippets (caps : Capabilities) (ctx : ExecutionContext) (cfg : NodeConfig) : List String :=
  if cfg.webSearch.getD false then
    match caps.webSearch (ctx.query.getD "") with
    | .ok s => s
    | .error _ => []
  else []

/-- Modelled from the spec: the LLMEngine executor (spec section 4.3);
rejects providers outside `allowedProviders` with `UnsupportedProvider`,
otherwise calls the provider capability with the configured provider,
model and temperature, converting an upstream failure into
`ProviderError`. -/
def llmEngineExec (caps : Capabilities) (ctx : ExecutionContext)
    (cfg : NodeConfig) : Except ErrorKind String :=
  match cfg.provider with
  | some p =>
    if allowedProviders.contains p then
      match caps.generate p
          (buildPrompt (ctx.query.getD "") (ctx.passages.getD []) (webSnippets caps ctx cfg))
          (cfg.model.getD "") (cfg.temperature.getD 0) with
      | .ok t => .ok t
      | .error c => .error (.ProviderError p c)
    else .error .UnsupportedProvider
  | none => .error .UnsupportedProvider

/-- Modelled from the spec: the Output executor (spec section 4.3);
pass-through formatting of the prior step's text, failing with
`MalformedUpstreamOutput` when no upstream text exists.  The formatting
itself is the source's markdown normalization (part_002 lines 80-81). -/
def outputExec (ctx : ExecutionContext) (_cfg : NodeConfig) : Except ErrorKind String :=
  match ctx.generated with
  | some t => .ok (formatResponse t)
  | none => .error .MalformedUpstreamOutput

/-- Modelled from the spec: the single synthetic StepResult carrying a
validation error (spec section 4.4 step 1). -/
def syntheticStep (e : ErrorKind) : StepResult :=
  ⟨"validation", .failed, none, some e, 0⟩

/-- Modelled from the spec: the RunResult of a rejected run; the chain
never starts executing (spec section 4.4 step 1). -/
def rejectedResult (e : ErrorKind) : RunResult :=
  ⟨[syntheticStep e], none, .failed, 0⟩

/-- Modelled from the spec: the synthetic StepResult recorded when the
caller's cancellation signal fires (spec section 5). -/
def cancelledStep : StepResult :=
  ⟨"cancelled", .failed, none, some .Cancelled, 0⟩

/-- Modelled from the spec: the Pipeline Runner loop (spec section 4.4
steps 2-4 and the cancellation demand of section 5).  Before each step
the caller's cancellation signal is consulted at the step index; a fired
signal stops the run with `Cancelled` and the StepResults collected so
far.  A KnowledgeBase failure is non-fatal: the chain continues with
empty retrieved context.  Any other failing step halts with the partial
StepResult trail. -/
def runChain (caps : Capabilities) (signal : Nat → Bool) :
    List NodeSpec → Nat → ExecutionContext → List StepResult → RunResult
  | [], _, _, acc =>
    ⟨acc, (acc.getLast?).bind (fun s => s.output), .completed, 0⟩
  | n :: rest, i, ctx, acc =>
    if signal i then ⟨acc ++ [cancelledStep], none, .failed, 0⟩
    else
      match n.kind with
      | .UserQuery =>
        match userQueryExec ctx n.config with
        | .ok q => runChain caps signal rest (i + 1) { ctx with query := some q }
            (acc ++ [⟨n.id, .ok, some (.vstr q), none, 0⟩])
        | .error e => ⟨acc ++ [⟨n.id, .failed, none, some e, 0⟩], none, .failed, 0⟩
      | .KnowledgeBase =>
        match knowledgeBaseExec caps ctx n.config with
        | .ok ps => runChain caps signal rest (i + 1) { ctx with passages := some ps }
            (acc ++ [⟨n.id, .ok, some (.vlist ps), none, 0⟩])
        | .error e => runChain caps signal rest (i + 1) { ctx with passages := some [] }
            (acc ++ [⟨n.id, .failed, none, some e, 0⟩])
      | .LLMEngine =>
        match llmEngineExec caps ctx n.config with
        | .ok t => runChain caps signal rest (i + 1) { ctx with generated := some t }
            (acc ++ [⟨n.id, .ok, some (.vstr t), none, 0⟩])
        | .error e => ⟨acc ++ [⟨n.id, .failed, none, some e, 0⟩], none, .failed, 0⟩
      | .Output =>
        match outputExec ctx n.config with
        | .ok t => runChain caps signal rest (i + 1) ctx
            (acc ++ [⟨n.id, .ok, some (.vstr t), none, 0⟩])
        | .error e => ⟨acc ++ [⟨n.id, .failed, none, some e, 0⟩], none, .failed, 0⟩

/-- Modelled from the spec: the pipeline's outward operation
`execute(graph, query, cancellationSignal) -> RunResult` (spec section
6).  An already-fired signal returns `Cancelled` before anything runs
(spec section 8); otherwise the graph is validated and, on success, the
chain is executed. -/
def execute (g : Graph) (query : String) (caps : Capabilities)
    (signal : Nat → Bool) : RunResult :=
  if signal 0 then ⟨[cancelledStep], none, .failed, 0⟩
  else
    match validate g with
    | .error e => rejectedResult e
    | .ok chain => runChain caps signal chain 0 { query := some query } []

/-- Cancellation signal that never fires. -/
def noSignal : Nat → Bool := fun _ => false

/-- Modelled from the spec: `run(graph, initialQuery)` of spec section
4.4, an execution with a signal that never fires. -/
def run (g : Graph) (query : String) (caps : Capabilities) : RunResult :=
  execute g query caps noSignal

/-- Consecutive-pair edges of a chain of node ids, used to state what it
means for a graph's edges to form a single linear chain. -/
def chainEdges : List String → List EdgeSpec
  | a :: b :: rest => ⟨a, b⟩ :: chainEdges (b :: rest)
  | _ => []

/-- The successor of an id inside a chain of ids, if any. -/
def succIn : List String → String → Option String
  | a :: b :: rest, x => if x = a then some b else succIn (b :: rest) x
  | _, _ => none

/-- A graph is a single linear chain through the nodes `ns`, in that
order: its node set is exactly `ns` (as a multiset), the ids are unique,
its edge set is exactly the consecutive pairs of `ns`, the chain starts
at a UserQuery node and ends at an Output node. -/
def IsLinearChain (g : Graph) (ns : List NodeSpec) : Prop :=
  ns ≠ [] ∧
  g.nodes.Perm ns ∧
  (ns.map NodeSpec.id).Nodup ∧
  g.edges.Perm (chainEdges (ns.map NodeSpec.id)) ∧
  ns.head?.map NodeSpec.kind = some .UserQuery ∧
  ns.getLast?.map NodeSpec.kind = some .Output

deriving instance DecidableEq for Except

/-- Concrete UserQuery node of the spec section 8 scenario. -/
def q1 : NodeSpec := ⟨"q1", .UserQuery, {}⟩

/-- Concrete KnowledgeBase node of the spec section 8 scenario (`topK=3`;
`documentRefs` supplied so the registry config check passes). -/
def kb1 : NodeSpec := ⟨"kb1", .KnowledgeBase, { topK := some 3, documentRefs := some [] }⟩

/-- Concrete LLMEngine node of the spec section 8 scenario
(`provider="openai"`, `model="gpt-3.5"`, `webSearch=false`). -/
def llm1 : NodeSpec :=
  ⟨"llm1", .LLMEngine,
    { provider := some "openai", model := some "gpt-3.5",
      temperature := some 1, webSearch := some false }⟩

/-- Concrete Output node of the spec section 8 scenario. -/
def out1 : NodeSpec := ⟨"out1", .Output, {}⟩

/-- The chain node order of the spec section 8 scenario. -/
def chain5 : List NodeSpec := [q1, kb1, llm1, out1]

/-- The concrete 4-node graph of the spec section 8 scenario, with edges
q1→kb1, kb1→llm1, llm1→out1. -/
def g5 : Graph := ⟨chain5, [⟨"q1", "kb1"⟩, ⟨"kb1", "llm1"⟩, ⟨"llm1", "out1"⟩]⟩

/-- The LLM answer of the spec section 8 scenario. -/
def answer5 : String := "Photosynthesis converts light into chemical energy."

/-- Capabilities of the spec section 8 scenario: retrieval returns two
passages, the LLM returns the fixed answer, web search returns nothing. -/
def caps5 : Capabilities :=
  ⟨fun _ _ => .ok ["passage one", "passage two"],
   fun _ _ _ _ => .ok answer5,
   fun _ => .ok []⟩

/-- Capabilities whose retrieval always fails and whose LLM always
answers, for exercising the KnowledgeBase degradation policy. -/
def capsRetrDown : Capabilities :=
  ⟨fun _ _ => .error "vector store down",
   fun _ _ _ _ => .ok answer5,
   fun _ => .ok []⟩

/-- Capabilities whose LLM provider always fails, for exercising the
fatal-failure policy. -/
def capsLlmDown : Capabilities :=
  ⟨fun _ _ => .ok ["passage one"],
   fun _ _ _ _ => .error "provider unreachable",
   fun _ => .ok []⟩

/-- A graph with two distinct nodes sharing one id and a self-loop, so
that no node has in-degree 0 while the ids are not unique. -/
def gDup : Graph := ⟨[⟨"a", .UserQuery, {}⟩, ⟨"a", .Output, {}⟩], [⟨"a", "a"⟩]⟩

/-- A one-node graph with a self-loop: unique ids, no entry point. -/
def gNoEntry : Graph := ⟨[⟨"a", .UserQuery, {}⟩], [⟨"a", "a"⟩]⟩

/-- A three-node graph with a branch a→b, a→c: one entry, two exits. -/
def gTwoExit : Graph :=
  ⟨[⟨"a", .UserQuery, {}⟩, ⟨"b", .Output, {}⟩, ⟨"c", .Output, {}⟩],
   [⟨"a", "b"⟩, ⟨"a", "c"⟩]⟩

/-- The chain nodes of a structurally valid chain whose LLMEngine node is
missing its required `provider`, `model` and `temperature` config. -/
def chainBadCfg : List NodeSpec :=
  [⟨"q", .UserQuery, {}⟩, ⟨"l", .LLMEngine, {}⟩, ⟨"o", .Output, {}⟩]

/-- A structurally valid linear chain graph whose LLMEngine node has an
empty config. -/
def gBadCfg : Graph := ⟨chainBadCfg, [⟨"q", "l"⟩, ⟨"l", "o"⟩]⟩

theorem mk_data_eq (s : String) : String.mk s.data = s := rfl

theorem mk_eq_empty_iff (l : List Char) : String.mk l = "" ↔ l = [] :=
  ⟨fun h => congrArg String.data h, fun h => h ▸ rfl⟩

theorem jsTrim_eq_empty_iff (s : String) :
    jsTrim s = "" ↔ s.data.all isJsSpace = true := by
  unfold jsTrim
  rw [mk_eq_empty_iff, List.reverse_eq_nil_iff, List.dropWhile_eq_nil_iff,
    List.all_eq_true]
  constructor
  · intro h x hx
    have hsplit := List.takeWhile_append_dropWhile isJsSpace s.data
    rw [← hsplit] at hx
    rcases List.mem_append.mp hx with h1 | h2
    · exact List.mem_takeWhile_imp h1
    · exact h x (List.mem_reverse.mpr h2)
  · intro h x hx
    apply h
    have hsplit := List.takeWhile_append_dropWhile isJsSpace s.data
    rw [← hsplit]
    exact List.mem_append.mpr (Or.inr (List.mem_reverse.mp hx))

theorem blank_eq_all_space (q : String) : blank q = q.data.all isJsSpace := by
  rw [Bool.eq_iff_iff]
  unfold blank
  rw [beq_iff_eq]
  exact jsTrim_eq_empty_iff q

/-- Claim C6: a blank query (empty or whitespace-only, i.e. every
character is JavaScript whitespace) makes the UserQuery step fail with
`EmptyQuery`; a non-blank query is passed through as the raw query
string, unchanged. -/
theorem userQuery_blank_policy (q : String) (pf : Option (List String))
    (gf : Option String) (cfg : NodeConfig) :
    userQueryExec ⟨some q, pf, gf⟩ cfg =
      if q.data.all isJsSpace then .error .EmptyQuery else .ok q := by
  show (if blank q = true then Except.error ErrorKind.EmptyQuery else Except.ok q) = _
  rw [blank_eq_all_space]

/-- Claim C5: the Output step is pure pass-through formatting of the
prior step's text, and on the spec section 8 scenario (retrieval returns
two passages, the LLM returns the fixed photosynthesis answer) the run
completes with four ok StepResults and `finalOutput` equal to the
answer after Output formatting, which leaves this answer unchanged. -/
theorem output_passthrough_scenario :
    (∀ (t : String) (qf : Option String) (pf : Option (List String)) (cfg : NodeConfig),
        outputExec ⟨qf, pf, some t⟩ cfg = .ok (formatResponse t)) ∧
    formatResponse answer5 = answer5 ∧
    run g5 "What is photosynthesis?" caps5 =
      ⟨[⟨"q1", .ok, some (.vstr "What is photosynthesis?"), none, 0⟩,
        ⟨"kb1", .ok, some (.vlist ["passage one", "passage two"]), none, 0⟩,
        ⟨"llm1", .ok, some (.vstr answer5), none, 0⟩,
        ⟨"out1", .ok, some (.vstr answer5), none, 0⟩],
       some (.vstr answer5), .completed, 0⟩ :=
  ⟨fun _ _ _ _ => rfl, by decide, by decide⟩

theorem llmEngineExec_dispatch_eq (caps : Capabilities) (ctx : ExecutionContext)
    (cfg : NodeConfig) :
    llmEngineExec caps ctx cfg =
      match cfg.provider with
      | none => .error .UnsupportedProvider
      | some p =>
        if p = "openai" ∨ p = "gemini" then
          match caps.generate p
              (buildPrompt (ctx.query.getD "") (ctx.passages.getD [])
                (webSnippets caps ctx cfg))
              (cfg.model.getD "") (cfg.temperature.getD 0) with
          | .ok t => .ok t
          | .error c => .error (.ProviderError p c)
        else .error .UnsupportedProvider := by
  unfold llmEngineExec
  cases hp : cfg.provider with
  | none => rfl
  | some p =>
    dsimp only
    have hc : (allowedProviders.contains p = true) ↔ (p = "openai" ∨ p = "gemini") := by
      constructor
      · intro h
        have := List.mem_of_elem_eq_true h
        simpa [allowedProviders] using this
      · intro h
        apply List.elem_eq_true_of_mem
        simpa [allowedProviders] using h
    by_cases hor : p = "openai" ∨ p = "gemini"
    · rw [if_pos (hc.mpr hor), if_pos hor]
    · rw [if_neg (fun h => hor (hc.mp h)), if_neg hor]

/-- Claim C7: the LLMEngine executor fails with `UnsupportedProvider`
whenever `config.provider` is absent or outside {openai, gemini}, and
otherwise invokes the LLM provider capability with the configured
provider, the prompt, the configured model and the configured
temperature, mapping an upstream failure to `ProviderError`. -/
theorem llm_provider_dispatch (caps : Capabilities) (ctx : ExecutionContext)
    (cfg : NodeConfig) :
    llmEngineExec caps ctx cfg =
      match cfg.provider with
      | none => .error .UnsupportedProvider
      | some p =>
        if p = "openai" ∨ p = "gemini" then
          match caps.generate p
              (buildPrompt (ctx.query.getD "") (ctx.passages.getD [])
                (webSnippets caps ctx cfg))
              (cfg.model.getD "") (cfg.temperature.getD 0) with
          | .ok t => .ok t
          | .error c => .error (.ProviderError p c)
        else .error .UnsupportedProvider :=
  llmEngineExec_dispatch_eq caps ctx cfg

/-- Claim C8: graph validation is deterministic, side-effect-free and
idempotent; with the state of the input graph threaded explicitly, the
validator returns its input unchanged, and validating the returned graph
again yields the identical result. -/
theorem validation_pure (g : Graph) :
    (validateSt g).2 = g ∧
    validateSt ((validateSt g).2) = validateSt g ∧
    (validateSt g).1 = validate g :=
  ⟨rfl, rfl, rfl⟩

/-- Claim C9: an already-fired cancellation signal makes `execute` return
a failed RunResult whose only StepResult carries `Cancelled`, for every
graph, query and capabilities (so before any step executor can run), and
a signal observed fired at any step index stops the chain there with the
StepResults collected so far, for every capabilities. -/
theorem cancellation_halts (signal : Nat → Bool) (g : Graph) (q : String)
    (caps : Capabilities) (h0 : signal 0 = true) :
    execute g q caps signal = ⟨[cancelledStep], none, .failed, 0⟩ ∧
    ∀ (caps' : Capabilities) (n : NodeSpec) (rest : List NodeSpec) (i : Nat)
      (ctx : ExecutionContext) (acc : List StepResult), signal i = true →
      runChain caps' signal (n :: rest) i ctx acc =
        ⟨acc ++ [cancelledStep], none, .failed, 0⟩ := by
  constructor
  · unfold execute
    rw [if_pos h0]
  · intro caps' n rest i ctx acc hi
    unfold runChain
    rw [if_pos hi]

/-- Witness for C9: the cancellation theorem applied to the concrete
scenario graph with a signal that is already fired. -/
theorem cancellation_halts_w :
    execute g5 "What is photosynthesis?" caps5 (fun _ => true) =
      ⟨[cancelledStep], none, .failed, 0⟩ ∧
    runChain caps5 (fun _ => true) [q1] 3 {} [] =
      ⟨[cancelledStep], none, .failed, 0⟩ :=
  ⟨(cancellation_halts (fun _ => true) g5 "What is photosynthesis?" caps5 rfl).1,
   (cancellation_halts (fun _ => true) g5 "What is photosynthesis?" caps5 rfl).2
     caps5 q1 [] 3 {} []  rfl⟩

theorem splitGoF_flatten (fuel : Nat) :
    ∀ (acc cs : List Char), (splitGoF fuel acc cs).flatten = acc.reverse ++ cs := by
  induction fuel with
  | zero =>
    intro acc cs
    simp [splitGoF]
  | succ n ih =>
    intro acc cs
    cases cs with
    | nil => simp [splitGoF]
    | cons c rest =>
      cases hsp : isJsSpace c with
      | true =>
        simp only [splitGoF, hsp, if_true, List.flatten_cons, ih, List.reverse_nil,
          List.nil_append]
        rw [← List.append_assoc, List.append_assoc acc.reverse]
        simp [List.takeWhile_append_dropWhile]
      | false =>
        by_cases hbr : (c :: rest).take 5 = brChars
        · simp only [splitGoF, hsp, Bool.false_eq_true, if_false, hbr, if_true,
            List.flatten_cons, ih, List.reverse_nil, List.nil_append]
          conv_rhs => rw [← List.take_append_drop 5 (c :: rest)]
          rw [hbr]
        · simp only [splitGoF, hsp, Bool.false_eq_true, if_false, hbr, ih,
            List.reverse_cons, List.append_assoc, List.cons_append, List.nil_append]

theorem foldl_append_map_mk (l : List (List Char)) :
    ∀ (a : List Char),
      (l.map (fun cs => String.mk cs)).foldl (fun x y => x ++ y) (String.mk a) =
        String.mk (a ++ l.flatten) := by
  induction l with
  | nil =>
    intro a
    simp
  | cons cs l ih =>
    intro a
    simp only [List.map_cons, List.foldl_cons]
    rw [show String.mk a ++ String.mk cs = String.mk (a ++ cs) from rfl, ih,
      List.flatten_cons, List.append_assoc]

theorem run_of_validate_error (g : Graph) (q : String) (caps : Capabilities)
    (e : ErrorKind) (h : validate g = .error e) :
    run g q caps = rejectedResult e := by
  unfold run execute
  rw [show noSignal 0 = false from rfl, if_neg (by decide), h]

/-- Claim C2 (amended with unique node ids): a graph with unique node ids
whose in-degree-0 node count is not exactly one is rejected with
`MissingOrMultipleEntryPoint`, and one whose in-degree-0 count is one but
whose out-degree-0 count is not exactly one is rejected with
`MissingOrMultipleExitPoint`; in both cases `run` returns a failed
RunResult holding the single synthetic StepResult that carries the
validation error, identically for every query and every capabilities, so
no step executor is ever consulted. -/
theorem entry_exit_cardinality (g : Graph)
    (hnd : (g.nodes.map NodeSpec.id).Nodup) :
    ((entryNodes g).length ≠ 1 →
       validate g = .error .MissingOrMultipleEntryPoint ∧
       ∀ q caps, run g q caps = rejectedResult .MissingOrMultipleEntryPoint) ∧
    ((entryNodes g).length = 1 → (exitNodes g).length ≠ 1 →
       validate g = .error .MissingOrMultipleExitPoint ∧
       ∀ q caps, run g q caps = rejectedResult .MissingOrMultipleExitPoint) := by
  constructor
  · intro hlen
    have hval : validate g = .error .MissingOrMultipleEntryPoint := by
      unfold validate
      rw [if_pos hnd]
      rcases hE : entryNodes g with _ | ⟨a, _ | ⟨b, t⟩⟩
      · rfl
      · exact absurd (show (entryNodes g).length = 1 by simp [hE]) hlen
      · rfl
    exact ⟨hval, fun q caps => run_of_validate_error g q caps _ hval⟩
  · intro h1 h2
    obtain ⟨a, ha⟩ := List.length_eq_one.mp h1
    have hval : validate g = .error .MissingOrMultipleExitPoint := by
      unfold validate
      rw [if_pos hnd, ha]
      rcases hX : exitNodes g with _ | ⟨x, _ | ⟨y, t⟩⟩
      · rfl
      · exact absurd (show (exitNodes g).length = 1 by simp [hX]) h2
      · rfl
    exact ⟨hval, fun q caps => run_of_validate_error g q caps _ hval⟩

/-- Counterexample to claim C2 as stated: the graph `gDup` has two nodes
sharing the id "a" and a self-loop, so it has zero in-degree-0 nodes, yet
validation rejects it with `DuplicateNodeId`, not with the matching
entry-point error kind claimed. -/
theorem entry_exit_cardinality_cex :
    (entryNodes gDup).length ≠ 1 ∧
    validate gDup = .error .DuplicateNodeId := by decide

/-- Witness for C2: the amended theorem applied to a unique-id graph with
no entry point and to a unique-id graph with two exit points. -/
theorem entry_exit_cardinality_w :
    validate gNoEntry = .error .MissingOrMultipleEntryPoint ∧
    run gTwoExit "q" caps5 = rejectedResult .MissingOrMultipleExitPoint :=
  ⟨((entry_exit_cardinality gNoEntry (by decide)).1 (by decide)).1,
   ((entry_exit_cardinality gTwoExit (by decide)).2 (by decide) (by decide)).2 "q" caps5⟩

theorem run_of_validate_ok (g : Graph) (q : String) (caps : Capabilities)
    (ns : List NodeSpec) (h : validate g = .ok ns) :
    run g q caps = runChain caps noSignal ns 0 ⟨some q, none, none⟩ [] := by
  unfold run execute
  rw [show noSignal 0 = false from rfl, if_neg (by decide), h]

theorem runChain_nil (caps : Capabilities) (signal : Nat → Bool) (i : Nat)
    (ctx : ExecutionContext) (acc : List StepResult) :
    runChain caps signal [] i ctx acc =
      ⟨acc, (acc.getLast?).bind (fun s => s.output), .completed, 0⟩ := rfl

theorem runChain_uq_ok (caps : Capabilities) (n : NodeSpec) (rest : List NodeSpec)
    (i : Nat) (ctx : ExecutionContext) (acc : List StepResult) (q : String)
    (hk : n.kind = .UserQuery) (hx : userQueryExec ctx n.config = .ok q) :
    runChain caps noSignal (n :: rest) i ctx acc =
      runChain caps noSignal rest (i + 1) { ctx with query := some q }
        (acc ++ [⟨n.id, .ok, some (.vstr q), none, 0⟩]) := by
  simp only [runChain]
  rw [show noSignal i = false from rfl, if_neg (by decide), hk]
  dsimp only
  rw [hx]

theorem runChain_kb_ok (caps : Capabilities) (n : NodeSpec) (rest : List NodeSpec)
    (i : Nat) (ctx : ExecutionContext) (acc : List StepResult) (ps : List String)
    (hk : n.kind = .KnowledgeBase) (hx : knowledgeBaseExec caps ctx n.config = .ok ps) :
    runChain caps noSignal (n :: rest) i ctx acc =
      runChain caps noSignal rest (i + 1) { ctx with passages := some ps }
        (acc ++ [⟨n.id, .ok, some (.vlist ps), none, 0⟩]) := by
  simp only [runChain]
  rw [show noSignal i = false from rfl, if_neg (by decide), hk]
  dsimp only
  rw [hx]

theorem runChain_kb_error (caps : Capabilities) (n : NodeSpec) (rest : List NodeSpec)
    (i : Nat) (ctx : ExecutionContext) (acc : List StepResult) (e : ErrorKind)
    (hk : n.kind = .KnowledgeBase) (hx : knowledgeBaseExec caps ctx n.config = .error e) :
    runChain caps noSignal (n :: rest) i ctx acc =
      runChain caps noSignal rest (i + 1) { ctx with passages := some [] }
        (acc ++ [⟨n.id, .failed, none, some e, 0⟩]) := by
  simp only [runChain]
  rw [show noSignal i = false from rfl, if_neg (by decide), hk]
  dsimp only
  rw [hx]

theorem runChain_llm_ok (caps : Capabilities) (n : NodeSpec) (rest : List NodeSpec)
    (i : Nat) (ctx : ExecutionContext) (acc : List StepResult) (t : String)
    (hk : n.kind = .LLMEngine) (hx : llmEngineExec caps ctx n.config = .ok t) :
    runChain caps noSignal (n :: rest) i ctx acc =
      runChain caps noSignal rest (i + 1) { ctx with generated := some t }
        (acc ++ [⟨n.id, .ok, some (.vstr t), none, 0⟩]) := by
  simp only [runChain]
  rw [show noSignal i = false from rfl, if_neg (by decide), hk]
  dsimp only
  rw [hx]

theorem runChain_llm_error (caps : Capabilities) (n : NodeSpec) (rest : List NodeSpec)
    (i : Nat) (ctx : ExecutionContext) (acc : List StepResult) (e : ErrorKind)
    (hk : n.kind = .LLMEngine) (hx : llmEngineExec caps ctx n.config = .error e) :
    runChain caps noSignal (n :: rest) i ctx acc =
      ⟨acc ++ [⟨n.id, .failed, none, some e, 0⟩], none, .failed, 0⟩ := by
  simp only [runChain]
  rw [show noSignal i = false from rfl, if_neg (by decide), hk]
  dsimp only
  rw [hx]

theorem runChain_out_ok (caps : Capabilities) (n : NodeSpec) (rest : List NodeSpec)
    (i : Nat) (ctx : ExecutionContext) (acc : List StepResult) (t : String)
    (hk : n.kind = .Output) (hx : outputExec ctx n.config = .ok t) :
    runChain caps noSignal (n :: rest) i ctx acc =
      runChain caps noSignal rest (i + 1) ctx
        (acc ++ [⟨n.id, .ok, some (.vstr t), none, 0⟩]) := by
  simp only [runChain]
  rw [show noSignal i = false from rfl, if_neg (by decide), hk]
  dsimp only
  rw [hx]

/-- Claim C3: on a validated UserQuery→KnowledgeBase→LLMEngine→Output
chain whose retrieval capability fails on every call, the KnowledgeBase
failure does not abort the run; the chain continues with empty retrieved
context, and the run completes (step statuses ok, failed, ok, ok)
provided the query is non-blank, the provider is supported and the LLM
call succeeds (the Output step then succeeds by construction). -/
theorem kb_failure_nonfatal (g : Graph) (n1 n2 n3 n4 : NodeSpec) (q : String)
    (caps : Capabilities) (p : String)
    (hv : validate g = .ok [n1, n2, n3, n4])
    (hk1 : n1.kind = .UserQuery) (hk2 : n2.kind = .KnowledgeBase)
    (hk3 : n3.kind = .LLMEngine) (hk4 : n4.kind = .Output)
    (hq : blank q = false)
    (hp : n3.config.provider = some p) (hpa : p = "openai" ∨ p = "gemini")
    (hret : ∀ s k, ∃ e, caps.retrieve s k = .error e)
    (hgen : ∀ pr pt m t, ∃ o, caps.generate pr pt m t = .ok o) :
    (run g q caps).status = .completed ∧
    (run g q caps).steps.map StepResult.status = [.ok, .failed, .ok, .ok] := by
  have h1 : userQueryExec ⟨some q, none, none⟩ n1.config = .ok q := by
    show (if blank q = true then Except.error ErrorKind.EmptyQuery else Except.ok q) = _
    rw [hq, if_neg (by decide)]
  obtain ⟨e2, he2⟩ :=
    hret ((⟨some q, none, none⟩ : ExecutionContext).query.getD "") (n2.config.topK.getD 0)
  have h2 : knowledgeBaseExec caps ⟨some q, none, none⟩ n2.config
      = .error .RetrievalUnavailable := by
    unfold knowledgeBaseExec
    rw [he2]
  have h3 := llmEngineExec_dispatch_eq caps ⟨some q, some [], none⟩ n3.config
  rw [hp] at h3
  dsimp only at h3
  rw [if_pos hpa] at h3
  obtain ⟨o3, ho3⟩ := hgen p _ _ _
  rw [ho3] at h3
  have h4 : outputExec ⟨some q, some [], some o3⟩ n4.config
      = .ok (formatResponse o3) := rfl
  have e0 : run g q caps
      = runChain caps noSignal [n1, n2, n3, n4] 0 ⟨some q, none, none⟩ [] :=
    run_of_validate_ok g q caps _ hv
  have e1 : runChain caps noSignal [n1, n2, n3, n4] 0 ⟨some q, none, none⟩ []
      = runChain caps noSignal [n2, n3, n4] 1 ⟨some q, none, none⟩
          [⟨n1.id, .ok, some (.vstr q), none, 0⟩] :=
    (runChain_uq_ok caps n1 [n2, n3, n4] 0 ⟨some q, none, none⟩ [] q hk1 h1).trans rfl
  have e2 : runChain caps noSignal [n2, n3, n4] 1 ⟨some q, none, none⟩
        [⟨n1.id, .ok, some (.vstr q), none, 0⟩]
      = runChain caps noSignal [n3, n4] 2 ⟨some q, some [], none⟩
          [⟨n1.id, .ok, some (.vstr q), none, 0⟩,
           ⟨n2.id, .failed, none, some .RetrievalUnavailable, 0⟩] :=
    (runChain_kb_error caps n2 [n3, n4] 1 ⟨some q, none, none⟩ _ _ hk2 h2).trans rfl
  have e3 : runChain caps noSignal [n3, n4] 2 ⟨some q, some [], none⟩
        [⟨n1.id, .ok, some (.vstr q), none, 0⟩,
         ⟨n2.id, .failed, none, some .RetrievalUnavailable, 0⟩]
      = runChain caps noSignal [n4] 3 ⟨some q, some [], some o3⟩
          [⟨n1.id, .ok, some (.vstr q), none, 0⟩,
           ⟨n2.id, .failed, none, some .RetrievalUnavailable, 0⟩,
           ⟨n3.id, .ok, some (.vstr o3), none, 0⟩] :=
    (runChain_llm_ok caps n3 [n4] 2 ⟨some q, some [], none⟩ _ o3 hk3 h3).trans rfl
  have e4 : runChain caps noSignal [n4] 3 ⟨some q, some [], some o3⟩
        [⟨n1.id, .ok, some (.vstr q), none, 0⟩,
         ⟨n2.id, .failed, none, some .RetrievalUnavailable, 0⟩,
         ⟨n3.id, .ok, some (.vstr o3), none, 0⟩]
      = runChain caps noSignal [] 4 ⟨some q, some [], some o3⟩
          [⟨n1.id, .ok, some (.vstr q), none, 0⟩,
           ⟨n2.id, .failed, none, some .RetrievalUnavailable, 0⟩,
           ⟨n3.id, .ok, some (.vstr o3), none, 0⟩,
           ⟨n4.id, .ok, some (.vstr (formatResponse o3)), none, 0⟩] :=
    (runChain_out_ok caps n4 [] 3 ⟨some q, some [], some o3⟩ _
      (formatResponse o3) hk4 h4).trans rfl
  have e5 : runChain caps noSignal [] 4 ⟨some q, some [], some o3⟩
        [⟨n1.id, .ok, some (.vstr q), none, 0⟩,
         ⟨n2.id, .failed, none, some .RetrievalUnavailable, 0⟩,
         ⟨n3.id, .ok, some (.vstr o3), none, 0⟩,
         ⟨n4.id, .ok, some (.vstr (formatResponse o3)), none, 0⟩]
      = ⟨[⟨n1.id, .ok, some (.vstr q), none, 0⟩,
          ⟨n2.id, .failed, none, some .RetrievalUnavailable, 0⟩,
          ⟨n3.id, .ok, some (.vstr o3), none, 0⟩,
          ⟨n4.id, .ok, some (.vstr (formatResponse o3)), none, 0⟩],
         some (.vstr (formatResponse o3)), .completed, 0⟩ := rfl
  rw [e0, e1, e2, e3, e4, e5]
  exact ⟨rfl, rfl⟩

/-- Witness for C3: the theorem applied to the concrete scenario graph
with capabilities whose retrieval always fails and whose LLM always
answers. -/
theorem kb_failure_nonfatal_w :
    (run g5 "What is photosynthesis?" capsRetrDown).status = .completed ∧
    (run g5 "What is photosynthesis?" capsRetrDown).steps.map StepResult.status
      = [.ok, .failed, .ok, .ok] :=
  kb_failure_nonfatal g5 q1 kb1 llm1 out1 "What is photosynthesis?" capsRetrDown
    "openai" (by decide) rfl rfl rfl rfl (by decide) rfl (Or.inl rfl)
    (fun s k => ⟨"vector store down", rfl⟩)
    (fun pr pt m t => ⟨answer5, rfl⟩)

theorem filterMap_full {α β : Type} (f : α → Option β) (gFn : β → α)
    (hfg : ∀ a b, f a = some b → gFn b = a) :
    ∀ l : List α, (l.filterMap f).length = l.length →
      (l.filterMap f).map gFn = l := by
  intro l
  induction l with
  | nil => intro _; rfl
  | cons a l ih =>
    intro hlen
    cases hf : f a with
    | none =>
      rw [List.filterMap_cons_none hf] at hlen
      have := List.length_filterMap_le f l
      simp only [List.length_cons] at hlen
      omega
    | some b =>
      rw [List.filterMap_cons_some hf] at hlen ⊢
      simp only [List.length_cons, Nat.add_right_cancel_iff] at hlen
      rw [List.map_cons, hfg a b hf, ih hlen]

theorem validate_ok_nodup (g : Graph) (ns : List NodeSpec)
    (h : validate g = .ok ns) : (ns.map NodeSpec.id).Nodup := by
  unfold validate at h
  split at h
  case isFalse => exact absurd h (by simp)
  split at h
  case h_2 => exact absurd h (by simp)
  split at h
  case h_2 => exact absurd h (by simp)
  split at h
  case isTrue => exact absurd h (by simp)
  split at h
  case h_1 => exact absurd h (by simp)
  dsimp only at h
  split at h
  case isFalse => exact absurd h (by simp)
  split at h
  case isFalse => exact absurd h (by simp)
  split at h
  case h_1 => exact absurd h (by simp)
  rename_i hgnd x1 en heq1 x2 xn heq2 hnb x3 visited heq3 hcond hkinds x4 hfound
  rw [Except.ok.injEq] at h
  obtain ⟨hlen1, hlen2, hnd⟩ := hcond
  have hids : ((visited.filterMap
      (fun i => g.nodes.find? (fun n => n.id == i))).map NodeSpec.id) = visited := by
    apply filterMap_full
    · intro i n hfind2
      have h5 := List.find?_some hfind2
      simp only [beq_iff_eq] at h5
      exact h5
    · omega
  rw [← h, hids]
  exact hnd

/-- Claim C4: on a validated UserQuery→KnowledgeBase→LLMEngine→Output
chain whose LLM provider call always fails, the pipeline halts at the
LLMEngine step without retrying; the run fails, the StepResults are
exactly those of the first three nodes (everything recorded before the
failure, in order), and no StepResult for the Output node exists.  The
query must be non-blank so that the chain reaches the LLMEngine at all;
the retrieval capability is unconstrained. -/
theorem llm_failure_fatal (g : Graph) (n1 n2 n3 n4 : NodeSpec) (q : String)
    (caps : Capabilities)
    (hv : validate g = .ok [n1, n2, n3, n4])
    (hk1 : n1.kind = .UserQuery) (hk2 : n2.kind = .KnowledgeBase)
    (hk3 : n3.kind = .LLMEngine) (hk4 : n4.kind = .Output)
    (hq : blank q = false)
    (hgen : ∀ pr pt m t, ∃ e, caps.generate pr pt m t = .error e) :
    (run g q caps).status = .failed ∧
    (run g q caps).steps.map StepResult.nodeId = [n1.id, n2.id, n3.id] ∧
    n4.id ∉ (run g q caps).steps.map StepResult.nodeId := by
  have hnd := validate_ok_nodup g _ hv
  simp only [List.map_cons, List.map_nil] at hnd
  have hne : n4.id ∉ [n1.id, n2.id, n3.id] := by
    simp only [List.nodup_cons, List.mem_cons, List.mem_singleton,
      List.not_mem_nil, or_false] at hnd
    simp only [List.mem_cons, List.mem_singleton, List.not_mem_nil, or_false]
    rintro (h | h | h) <;> simp_all
  have hllm : ∀ ctx : ExecutionContext,
      ∃ e, llmEngineExec caps ctx n3.config = .error e := by
    intro ctx
    rw [llmEngineExec_dispatch_eq]
    rcases hp : n3.config.provider with _ | p
    · exact ⟨.UnsupportedProvider, rfl⟩
    · dsimp only
      by_cases hpa : p = "openai" ∨ p = "gemini"
      · obtain ⟨e, he⟩ := hgen p
          (buildPrompt (ctx.query.getD "") (ctx.passages.getD [])
            (webSnippets caps ctx n3.config))
          (n3.config.model.getD "") (n3.config.temperature.getD 0)
        rw [if_pos hpa, he]
        exact ⟨.ProviderError p e, rfl⟩
      · rw [if_neg hpa]
        exact ⟨.UnsupportedProvider, rfl⟩
  have h1 : userQueryExec ⟨some q, none, none⟩ n1.config = .ok q := by
    show (if blank q = true then Except.error ErrorKind.EmptyQuery else Except.ok q) = _
    rw [hq, if_neg (by decide)]
  have e0 : run g q caps
      = runChain caps noSignal [n1, n2, n3, n4] 0 ⟨some q, none, none⟩ [] :=
    run_of_validate_ok g q caps _ hv
  have e1 : runChain caps noSignal [n1, n2, n3, n4] 0 ⟨some q, none, none⟩ []
      = runChain caps noSignal [n2, n3, n4] 1 ⟨some q, none, none⟩
          [⟨n1.id, .ok, some (.vstr q), none, 0⟩] :=
    (runChain_uq_ok caps n1 [n2, n3, n4] 0 ⟨some q, none, none⟩ [] q hk1 h1).trans rfl
  cases hkb : knowledgeBaseExec caps ⟨some q, none, none⟩ n2.config with
  | error e2 =>
    obtain ⟨e3, he3⟩ := hllm ⟨some q, some [], none⟩
    have e2h : runChain caps noSignal [n2, n3, n4] 1 ⟨some q, none, none⟩
          [⟨n1.id, .ok, some (.vstr q), none, 0⟩]
        = runChain caps noSignal [n3, n4] 2 ⟨some q, some [], none⟩
            [⟨n1.id, .ok, some (.vstr q), none, 0⟩,
             ⟨n2.id, .failed, none, some e2, 0⟩] :=
      (runChain_kb_error caps n2 [n3, n4] 1 ⟨some q, none, none⟩ _ _ hk2 hkb).trans rfl
    have e3h : runChain caps noSignal [n3, n4] 2 ⟨some q, some [], none⟩
          [⟨n1.id, .ok, some (.vstr q), none, 0⟩,
           ⟨n2.id, .failed, none, some e2, 0⟩]
        = ⟨[⟨n1.id, .ok, some (.vstr q), none, 0⟩,
            ⟨n2.id, .failed, none, some e2, 0⟩,
            ⟨n3.id, .failed, none, some e3, 0⟩], none, .failed, 0⟩ :=
      (runChain_llm_error caps n3 [n4] 2 ⟨some q, some [], none⟩ _ _ hk3 he3).trans rfl
    rw [e0, e1, e2h, e3h]
    exact ⟨rfl, rfl, hne⟩
  | ok ps =>
    obtain ⟨e3, he3⟩ := hllm ⟨some q, some ps, none⟩
    have e2h : runChain caps noSignal [n2, n3, n4] 1 ⟨some q, none, none⟩
          [⟨n1.id, .ok, some (.vstr q), none, 0⟩]
        = runChain caps noSignal [n3, n4] 2 ⟨some q, some ps, none⟩
            [⟨n1.id, .ok, some (.vstr q), none, 0⟩,
             ⟨n2.id, .ok, some (.vlist ps), none, 0⟩] :=
      (runChain_kb_ok caps n2 [n3, n4] 1 ⟨some q, none, none⟩ _ _ hk2 hkb).trans rfl
    have e3h : runChain caps noSignal [n3, n4] 2 ⟨some q, some ps, none⟩
          [⟨n1.id, .ok, some (.vstr q), none, 0⟩,
           ⟨n2.id, .ok, some (.vlist ps), none, 0⟩]
        = ⟨[⟨n1.id, .ok, some (.vstr q), none, 0⟩,
            ⟨n2.id, .ok, some (.vlist ps), none, 0⟩,
            ⟨n3.id, .failed, none, some e3, 0⟩], none, .failed, 0⟩ :=
      (runChain_llm_error caps n3 [n4] 2 ⟨some q, some ps, none⟩ _ _ hk3 he3).trans rfl
    rw [e0, e1, e2h, e3h]
    exact ⟨rfl, rfl, hne⟩

/-- Witness for C4: the theorem applied to the concrete scenario graph
with capabilities whose LLM provider always fails. -/
theorem llm_failure_fatal_w :
    (run g5 "What is photosynthesis?" capsLlmDown).status = .failed ∧
    (run g5 "What is photosynthesis?" capsLlmDown).steps.map StepResult.nodeId
      = ["q1", "kb1", "llm1"] ∧
    "out1" ∉ (run g5 "What is photosynthesis?" capsLlmDown).steps.map StepResult.nodeId :=
  llm_failure_fatal g5 q1 kb1 llm1 out1 "What is photosynthesis?" capsLlmDown
    (by decide) rfl rfl rfl rfl (by decide)
    (fun pr pt m t => ⟨"provider unreachable", rfl⟩)

theorem chainEdges_map_from :
    ∀ l : List String, (chainEdges l).map EdgeSpec.fromId = l.dropLast
  | [] => rfl
  | [_] => rfl
  | a :: b :: rest => by
    rw [show chainEdges (a :: b :: rest) = ⟨a, b⟩ :: chainEdges (b :: rest) from rfl,
      List.map_cons, chainEdges_map_from (b :: rest)]
    rfl

theorem chainEdges_map_to :
    ∀ l : List String, (chainEdges l).map EdgeSpec.toId = l.tail
  | [] => rfl
  | [_] => rfl
  | a :: b :: rest => by
    rw [show chainEdges (a :: b :: rest) = ⟨a, b⟩ :: chainEdges (b :: rest) from rfl,
      List.map_cons, chainEdges_map_to (b :: rest)]
    rfl

theorem inDegree_chain (g : Graph) (l : List String)
    (hE : g.edges.Perm (chainEdges l)) (x : String) :
    inDegree g x = l.tail.count x := by
  unfold inDegree
  rw [← List.countP_eq_length_filter, hE.countP_eq, ← chainEdges_map_to l,
    List.count_eq_countP]
  rw [List.countP_map]
  rfl

theorem outDegree_chain (g : Graph) (l : List String)
    (hE : g.edges.Perm (chainEdges l)) (x : String) :
    outDegree g x = l.dropLast.count x := by
  unfold outDegree
  rw [← List.countP_eq_length_filter, hE.countP_eq, ← chainEdges_map_from l,
    List.count_eq_countP]
  rw [List.countP_map]
  rfl

theorem chainEdges_from_nil (l : List String) (x : String)
    (hx : x ∉ l.dropLast) :
    (chainEdges l).filter (fun e => e.fromId == x) = [] := by
  rw [List.filter_eq_nil_iff]
  intro e he hbeq
  rw [beq_iff_eq] at hbeq
  apply hx
  rw [← chainEdges_map_from l, ← hbeq]
  exact List.mem_map_of_mem EdgeSpec.fromId he

theorem chainEdges_from_succ (x d : String) :
    ∀ (pre : List String) (l : List String) (rest : List String),
      l.Nodup → l = pre ++ x :: d :: rest →
      (chainEdges l).filter (fun e => e.fromId == x) = [⟨x, d⟩] := by
  intro pre
  induction pre with
  | nil =>
    intro l rest hnd hl
    subst hl
    rw [show chainEdges ([] ++ x :: d :: rest) = ⟨x, d⟩ :: chainEdges (d :: rest) from rfl,
      List.filter_cons]
    simp only [beq_self_eq_true, if_true]
    rw [chainEdges_from_nil (d :: rest) x]
    intro hmem
    have hx : x ∈ d :: rest := (List.dropLast_sublist (d :: rest)).subset hmem
    simp only [List.nil_append, List.nodup_cons] at hnd
    exact hnd.1 hx
  | cons a pre' ih =>
    intro l rest hnd hl
    subst hl
    rw [List.cons_append] at hnd ⊢
    rcases hpp : pre' ++ x :: d :: rest with _ | ⟨b, t'⟩
    · exact absurd hpp (by simp)
    · rw [show chainEdges (a :: b :: t') = ⟨a, b⟩ :: chainEdges (b :: t') from rfl,
        List.filter_cons]
      have hax : ((⟨a, b⟩ : EdgeSpec).fromId == x) = false := by
        simp only [beq_eq_false_iff_ne, ne_eq]
        intro hax'
        rw [List.nodup_cons] at hnd
        exact hnd.1 (hax' ▸ (by simp : x ∈ pre' ++ x :: d :: rest))
      rw [hax, if_neg (by decide)]
      have hnd2 : (b :: t').Nodup := by
        rw [List.nodup_cons] at hnd
        rw [← hpp]
        exact hnd.2
      exact ih (b :: t') rest hnd2 hpp.symm

theorem walkAux_chain (E : List EdgeSpec) (l : List String) (hnd : l.Nodup)
    (hE : ∀ x, E.filter (fun e => e.fromId == x)
        = (chainEdges l).filter (fun e => e.fromId == x)) :
    ∀ (suf : List String) (pre : List String) (c : String) (acc : List String),
      l = pre ++ c :: suf →
      walkAux E (suf.length + 1) c acc = some (acc ++ c :: suf) := by
  intro suf
  induction suf with
  | nil =>
    intro pre c acc hl
    have hfe : E.filter (fun e => e.fromId == c) = [] := by
      rw [hE c]
      apply chainEdges_from_nil
      rw [hl, List.dropLast_concat]
      intro hc
      rw [hl, List.nodup_append] at hnd
      exact hnd.2.2 hc (by simp)
    unfold walkAux
    rw [hfe]
  | cons d suf' ih =>
    intro pre c acc hl
    have hfe : E.filter (fun e => e.fromId == c) = [⟨c, d⟩] := by
      rw [hE c]
      exact chainEdges_from_succ c d pre l suf' hnd hl
    show walkAux E (suf'.length + 1 + 1) c acc = _
    unfold walkAux
    rw [hfe]
    dsimp only
    have hl2 : l = (pre ++ [c]) ++ d :: suf' := by
      rw [hl, List.append_assoc]
      rfl
    rw [ih (pre ++ [c]) d (acc ++ [c]) hl2]
    rw [List.append_assoc]
    rfl

theorem find_id_unique :
    ∀ (l : List NodeSpec), (l.map NodeSpec.id).Nodup →
      ∀ n ∈ l, l.find? (fun m => m.id == n.id) = some n := by
  intro l
  induction l with
  | nil => intro _ n hn; exact absurd hn (by simp)
  | cons a t ih =>
    intro hnd n hn
    rw [List.map_cons, List.nodup_cons] at hnd
    by_cases ha : a.id = n.id
    · rw [List.find?_cons_of_pos _ (by simp [ha])]
      rcases List.mem_cons.mp hn with h | h
      · rw [h]
      · exact absurd (ha ▸ List.mem_map_of_mem NodeSpec.id h) hnd.1
    · rw [List.find?_cons_of_neg _ (by simp [ha])]
      rcases List.mem_cons.mp hn with h | h
      · exact absurd (congrArg NodeSpec.id h.symm) ha
      · exact ih hnd.2 n h

theorem filterMap_map_id (f : String → Option NodeSpec) :
    ∀ l : List NodeSpec, (∀ n ∈ l, f n.id = some n) →
      (l.map NodeSpec.id).filterMap f = l := by
  intro l
  induction l with
  | nil => intro _; rfl
  | cons a t ih =>
    intro h
    rw [List.map_cons, List.filterMap_cons_some (h a (by simp)),
      ih (fun n hn => h n (List.mem_cons_of_mem a hn))]

theorem edges_filter_eq (g : Graph) (l : List String) (hnd : l.Nodup)
    (hE : g.edges.Perm (chainEdges l)) (x : String) :
    g.edges.filter (fun e => e.fromId == x)
      = (chainEdges l).filter (fun e => e.fromId == x) := by
  have hperm := hE.filter (fun e => e.fromId == x)
  rcases hlf : (chainEdges l).filter (fun e => e.fromId == x) with _ | ⟨e, _ | ⟨e2, t2⟩⟩
  · rw [hlf] at hperm
    rw [hlf]
    exact List.perm_nil.mp hperm
  · rw [hlf] at hperm
    rw [hlf]
    exact List.perm_singleton.mp hperm
  · exfalso
    have hlen : ((chainEdges l).filter (fun e => e.fromId == x)).length
        = l.dropLast.count x := by
      rw [← List.countP_eq_length_filter, ← chainEdges_map_from l,
        List.count_eq_countP, List.countP_map]
      rfl
    have hle : l.dropLast.count x ≤ 1 :=
      List.nodup_iff_count_le_one.mp ((List.dropLast_sublist l).nodup hnd) x
    rw [hlf] at hlen
    simp only [List.length_cons] at hlen
    omega

/-- Claim C1 (amended with complete per-node configs): a graph whose
nodes are exactly the nodes of a chain `ns` with unique ids, whose edges
are exactly the consecutive pairs of `ns`, whose chain starts at a
UserQuery node and ends at an Output node, and whose every node supplies
the config fields its kind requires, validates successfully to exactly
`ns`, in chain order. -/
theorem validator_chain_roundtrip (g : Graph) (ns : List NodeSpec)
    (hchain : IsLinearChain g ns)
    (hcfg : ∀ n ∈ ns, missingField n = none) :
    validate g = .ok ns := by
  obtain ⟨hne, hperm, hnd, hE, hhead, hlast⟩ := hchain
  cases ns with
  | nil => exact absurd rfl hne
  | cons h0 t =>
  obtain ⟨ds, e0, hds⟩ : ∃ ds e0, h0 :: t = ds ++ [e0] := by
    rcases List.eq_nil_or_concat (h0 :: t) with h | ⟨L, b, hL⟩
    · exact absurd h (by simp)
    · exact ⟨L, b, by rw [hL, List.concat_eq_append]⟩
  have hndg : (g.nodes.map NodeSpec.id).Nodup := (hperm.map _).nodup_iff.mpr hnd
  have hk0 : h0.kind = .UserQuery := by
    simpa using hhead
  have hke : e0.kind = .Output := by
    rw [hds] at hlast
    rw [List.getLast?_concat] at hlast
    simpa using hlast
  have hin : ∀ x, inDegree g x = ((h0 :: t).map NodeSpec.id).tail.count x :=
    inDegree_chain g _ hE
  have hout : ∀ x, outDegree g x = ((h0 :: t).map NodeSpec.id).dropLast.count x :=
    outDegree_chain g _ hE
  have htail : ((h0 :: t).map NodeSpec.id).tail = t.map NodeSpec.id := rfl
  have hdrop : ((h0 :: t).map NodeSpec.id).dropLast = ds.map NodeSpec.id := by
    rw [hds, List.map_append]
    exact List.dropLast_concat
  have htnd : (t.map NodeSpec.id).Nodup := by
    rw [List.map_cons, List.nodup_cons] at hnd
    exact hnd.2
  have hdsnd : (ds.map NodeSpec.id).Nodup := by
    rw [← hdrop]
    exact (List.dropLast_sublist _).nodup hnd
  have hmemt : ∀ n ∈ t, (inDegree g n.id == 0) = false := by
    intro n hnT
    rw [hin, htail]
    have hpos : 0 < (t.map NodeSpec.id).count n.id :=
      List.count_pos_iff.mpr (List.mem_map_of_mem _ hnT)
    simp only [beq_eq_false_iff_ne, ne_eq]
    omega
  have hh0 : (inDegree g h0.id == 0) = true := by
    rw [hin, htail]
    have hnm : h0.id ∉ t.map NodeSpec.id := by
      rw [List.map_cons, List.nodup_cons] at hnd
      exact hnd.1
    rw [List.count_eq_zero.mpr hnm]
    rfl
  have hentry : entryNodes g = [h0] := by
    apply List.perm_singleton.mp
    have hp1 : entryNodes g |>.Perm ((h0 :: t).filter (fun n => inDegree g n.id == 0)) :=
      hperm.filter _
    rw [List.filter_cons, hh0, if_pos rfl,
      List.filter_eq_nil_iff.mpr (fun a ha => by rw [hmemt a ha]; simp)] at hp1
    exact hp1
  have hmemds : ∀ n ∈ ds, (outDegree g n.id == 0) = false := by
    intro n hnD
    rw [hout, hdrop]
    have hpos : 0 < (ds.map NodeSpec.id).count n.id :=
      List.count_pos_iff.mpr (List.mem_map_of_mem _ hnD)
    simp only [beq_eq_false_iff_ne, ne_eq]
    omega
  have he0 : (outDegree g e0.id == 0) = true := by
    rw [hout, hdrop]
    have hnm : e0.id ∉ ds.map NodeSpec.id := by
      rw [hds, List.map_append] at hnd
      rcases List.nodup_append.mp hnd with ⟨_, _, hdisj⟩
      intro hmem
      exact hdisj hmem (by simp)
    rw [List.count_eq_zero.mpr hnm]
    rfl
  have hexit : exitNodes g = [e0] := by
    apply List.perm_singleton.mp
    have hp2 : exitNodes g |>.Perm ((h0 :: t).filter (fun n => outDegree g n.id == 0)) :=
      hperm.filter _
    rw [hds, List.filter_append,
      List.filter_eq_nil_iff.mpr (fun a ha => by rw [hmemds a ha]; simp),
      List.filter_cons, he0, if_pos rfl] at hp2
    exact hp2
  have hanyf : (g.nodes.any (fun n =>
      decide (1 < inDegree g n.id) || decide (1 < outDegree g n.id))) = false := by
    rw [List.any_eq_false]
    intro n _
    have hle1 : inDegree g n.id ≤ 1 := by
      rw [hin, htail]
      exact List.nodup_iff_count_le_one.mp htnd _
    have hle2 : outDegree g n.id ≤ 1 := by
      rw [hout, hdrop]
      exact List.nodup_iff_count_le_one.mp hdsnd _
    simp only [Bool.or_eq_true, decide_eq_true_eq, not_or, not_lt]
    exact ⟨hle1, hle2⟩
  have hwalk : walkAux g.edges g.nodes.length h0.id []
      = some ((h0 :: t).map NodeSpec.id) := by
    have hlen : g.nodes.length = (t.map NodeSpec.id).length + 1 := by
      rw [hperm.length_eq]
      simp
    rw [hlen]
    exact walkAux_chain g.edges _ hnd (edges_filter_eq g _ hnd hE)
      (t.map NodeSpec.id) [] h0.id [] rfl
  have hres : ((h0 :: t).map NodeSpec.id).filterMap
      (fun i => g.nodes.find? (fun n => n.id == i)) = h0 :: t := by
    apply filterMap_map_id
    intro n hn
    exact find_id_unique g.nodes hndg n (hperm.mem_iff.mpr hn)
  unfold validate
  rw [if_pos hndg, hentry]
  dsimp only
  rw [hexit]
  dsimp only
  rw [hanyf, if_neg (by decide), hwalk]
  dsimp only
  rw [hres]
  rw [if_pos ⟨by rw [List.length_map, hperm.length_eq],
    by rw [hperm.length_eq], hnd⟩]
  rw [if_pos ⟨hk0, hke⟩]
  rw [List.find?_eq_none.mpr (fun n hn => by rw [hcfg n hn]; simp)]

/-- Counterexample to claim C1 as stated: `gBadCfg` is a single linear
UserQuery→LLMEngine→Output chain with unique ids, no branching and no
cycles, yet validation rejects it because its LLMEngine node is missing
the required `provider` config field, instead of returning the chain. -/
theorem validator_chain_roundtrip_cex :
    IsLinearChain gBadCfg chainBadCfg ∧
    validate gBadCfg = .error (.InvalidNodeConfig "l" "provider") := by
  constructor
  · exact ⟨by decide, by decide, by decide, by decide, by decide, by decide⟩
  · decide

/-- Witness for C1: the amended theorem applied to the concrete scenario
graph, whose four nodes supply all required config fields. -/
theorem validator_chain_roundtrip_w : validate g5 = .ok chain5 :=
  validator_chain_roundtrip g5 chain5
    ⟨by decide, by decide, by decide, by decide, by decide, by decide⟩
    (by decide)

/-- Claim C10: the word-by-word typing animation loses no text; for every
formatted response string, the separator-preserving split yields parts
whose in-order concatenation onto the initially empty AI message
reconstructs the string exactly. -/
theorem typing_split_lossless (s : String) :
    (splitTyping s).foldl (fun a b => a ++ b) "" = s := by
  rw [splitTyping, show ("" : String) = String.mk [] from rfl, foldl_append_map_mk,
    splitGoF_flatten]
  simp [mk_data_eq]

end AiStack
